import Mathlib

/-!
Verification of the jasper feedforward neural-network library (v1, with the
v2 SaveData document where noted).  Go float64 arithmetic is idealised as ℝ;
machine indices are ℕ.  Matrices are shallowly embedded following
src/v1/matrix.go: a flat row-major value list together with a column and a
row count, where the cell (col,row) lives at index row*cols+col.  Fallible
operations return Except String, mirroring the Go error returns.
-/

noncomputable section

namespace Jasper

/-- Matrix holds the matrix data type (src/v1/matrix.go): flat row-major
storage with explicit column and row counts. -/
structure Matrix where
  cols : ℕ
  rows : ℕ
  values : List ℝ

instance : Inhabited Matrix := ⟨⟨0, 0, []⟩⟩

/-- NewMatrix creates a cols×rows matrix whose backing store holds
cols*rows zeroes (Go: make([]float64, cols*rows)). -/
def NewMatrix (cols rows : ℕ) : Matrix :=
  ⟨cols, rows, List.replicate (cols * rows) 0⟩

/-- NewMatrixFromSlice wraps a flat slice as a single-row matrix
(cols = length, rows = 1), keeping the slice as the backing store. -/
def NewMatrixFromSlice (slc : List ℝ) : Matrix :=
  ⟨slc.length, 1, slc⟩

/-- Matrix.At with the Go error signature: value plus possible error; the
value component is 0 whenever an index is out of range, exactly as the Go
method returns (0, err).  Jasper's arithmetic loops discard the error and
use the value, so this total accessor is what the loops read. -/
def Matrix.at (m : Matrix) (col row : ℕ) : ℝ :=
  if col < m.cols ∧ row < m.rows then m.values.getD (row * m.cols + col) 0 else 0

/-- Matrix.At as the fallible accessor (bounds-checked read). -/
def Matrix.atE (m : Matrix) (col row : ℕ) : Except String ℝ :=
  if col < m.cols then
    if row < m.rows then .ok (m.values.getD (row * m.cols + col) 0)
    else .error "row out of range"
  else .error "column out of range"

/-- Row-major construction of a cols×rows matrix from an entry function:
the value at flat index i is f (i % cols) (i / cols), which is exactly what
the source's nested for y / for x loops write via o.Set(x, y, f x y). -/
def Matrix.build (cols rows : ℕ) (f : ℕ → ℕ → ℝ) : Matrix :=
  ⟨cols, rows, (List.range (rows * cols)).map (fun i => f (i % cols) (i / cols))⟩

/-- Core of Matrix.Multiply: the (other.cols × self.rows) matrix of
triple-loop dot products, as built once the shape guard has passed. -/
def Matrix.mulC (m tgt : Matrix) : Matrix :=
  Matrix.build tgt.cols m.rows
    (fun x y => ((List.range m.cols).map (fun k => m.at k y * tgt.at x k)).sum)

/-- Matrix.Multiply (src/v1/matrix.go): requires self.cols = other.rows,
else the "shape error" failure. -/
def Matrix.multiply (m tgt : Matrix) : Except String Matrix :=
  if m.cols ≠ tgt.rows then .error "shape error" else .ok (m.mulC tgt)

/-- Core of Matrix.Add: the elementwise sum. -/
def Matrix.addC (m tgt : Matrix) : Matrix :=
  Matrix.build m.cols m.rows (fun x y => m.at x y + tgt.at x y)

/-- Matrix.Add: requires identical (cols,rows), else "shape error". -/
def Matrix.add (m tgt : Matrix) : Except String Matrix :=
  if m.cols ≠ tgt.cols ∨ m.rows ≠ tgt.rows then .error "shape error"
  else .ok (m.addC tgt)

/-- Core of Matrix.MultiplyElements: the elementwise product. -/
def Matrix.hadC (m tgt : Matrix) : Matrix :=
  Matrix.build m.cols m.rows (fun x y => m.at x y * tgt.at x y)

/-- Matrix.MultiplyElements: requires identical (cols,rows), else
"shape error". -/
def Matrix.multiplyElements (m tgt : Matrix) : Except String Matrix :=
  if m.cols ≠ tgt.cols ∨ m.rows ≠ tgt.rows then .error "shape error"
  else .ok (m.hadC tgt)

/-- Matrix.MultiplyScalar: elementwise scaling, always succeeds. -/
def Matrix.multiplyScalar (m : Matrix) (v : ℝ) : Matrix :=
  Matrix.build m.cols m.rows (fun x y => v * m.at x y)

/-- Matrix.ApplyFunction: a new matrix with f applied elementwise. -/
def Matrix.applyFunction (m : Matrix) (f : ℝ → ℝ) : Matrix :=
  Matrix.build m.cols m.rows (fun x y => f (m.at x y))

/-- Matrix.AddScalar: elementwise shift, always succeeds. -/
def Matrix.addScalar (m : Matrix) (v : ℝ) : Matrix :=
  Matrix.build m.cols m.rows (fun x y => v + m.at x y)

/-- Matrix.Negative: elementwise negation, always succeeds. -/
def Matrix.negative (m : Matrix) : Matrix :=
  Matrix.build m.cols m.rows (fun x y => -(m.at x y))

/-- Matrix.Transpose: dimensions swapped, entry (x,y) read from (y,x). -/
def Matrix.transpose (m : Matrix) : Matrix :=
  Matrix.build m.rows m.cols (fun x y => m.at y x)

/-- Matrix.SetValues: bulk store replacement, failing on a missing or
wrongly sized input slice. -/
def Matrix.setValues (m : Matrix) (vals : List ℝ) : Except String Matrix :=
  if vals.length ≠ m.values.length then .error "size error"
  else .ok { m with values := vals }

/-- A matrix is well formed when its backing store has exactly
rows*cols entries (the documented invariant of the data model). -/
def Matrix.WF (m : Matrix) : Prop := m.values.length = m.rows * m.cols

theorem Matrix.build_cols (c r : ℕ) (f : ℕ → ℕ → ℝ) : (Matrix.build c r f).cols = c := rfl

theorem Matrix.build_rows (c r : ℕ) (f : ℕ → ℕ → ℝ) : (Matrix.build c r f).rows = r := rfl

theorem Matrix.build_WF (c r : ℕ) (f : ℕ → ℕ → ℝ) : (Matrix.build c r f).WF := by
  simp [Matrix.build, Matrix.WF]

theorem Matrix.index_lt (c r x y : ℕ) (hx : x < c) (hy : y < r) :
    y * c + x < r * c := by
  calc y * c + x < y * c + c := by omega
  _ = (y + 1) * c := by ring
  _ ≤ r * c := Nat.mul_le_mul_right c (by omega)

/-- Reading an in-range entry of a built matrix gives back the entry
function. -/
theorem Matrix.build_at (c r : ℕ) (f : ℕ → ℕ → ℝ) (x y : ℕ)
    (hx : x < c) (hy : y < r) : (Matrix.build c r f).at x y = f x y := by
  have hidx : y * c + x < r * c := Matrix.index_lt c r x y hx hy
  have hc : 0 < c := by omega
  simp only [Matrix.at, Matrix.build, hx, hy, and_self, if_true]
  rw [List.getD_eq_getElem _ _ (by simpa using hidx)]
  have h1 : (y * c + x) % c = x := by
    rw [Nat.mul_comm y c, Nat.mul_add_mod]; exact Nat.mod_eq_of_lt hx
  have h2 : (y * c + x) / c = y := by
    rw [Nat.mul_comm y c, Nat.mul_add_div hc, Nat.div_eq_of_lt hx]; omega
  simp [h1, h2]

/-- Out-of-range reads give 0. -/
theorem Matrix.at_of_ge (m : Matrix) (x y : ℕ) (h : ¬(x < m.cols ∧ y < m.rows)) :
    m.at x y = 0 := by
  simp [Matrix.at, h]

theorem Matrix.multiply_eq_ok (m tgt : Matrix) (h : m.cols = tgt.rows) :
    m.multiply tgt = .ok (m.mulC tgt) := by
  simp [Matrix.multiply, h]

theorem Matrix.add_eq_ok (m tgt : Matrix) (hc : m.cols = tgt.cols) (hr : m.rows = tgt.rows) :
    m.add tgt = .ok (m.addC tgt) := by
  simp [Matrix.add, hc, hr]

theorem Matrix.multiplyElements_eq_ok (m tgt : Matrix) (hc : m.cols = tgt.cols)
    (hr : m.rows = tgt.rows) : m.multiplyElements tgt = .ok (m.hadC tgt) := by
  simp [Matrix.multiplyElements, hc, hr]

theorem Matrix.mulC_at (m tgt : Matrix) (x y : ℕ) (hx : x < tgt.cols) (hy : y < m.rows) :
    (m.mulC tgt).at x y = ((List.range m.cols).map (fun k => m.at k y * tgt.at x k)).sum :=
  Matrix.build_at _ _ _ x y hx hy

theorem Matrix.addC_at (m tgt : Matrix) (x y : ℕ) (hx : x < m.cols) (hy : y < m.rows) :
    (m.addC tgt).at x y = m.at x y + tgt.at x y :=
  Matrix.build_at _ _ _ x y hx hy

theorem Matrix.hadC_at (m tgt : Matrix) (x y : ℕ) (hx : x < m.cols) (hy : y < m.rows) :
    (m.hadC tgt).at x y = m.at x y * tgt.at x y :=
  Matrix.build_at _ _ _ x y hx hy

/-- Transposed entries, unconditionally: in range this is the permuted
value, out of range both sides are the default 0. -/
theorem Matrix.transpose_at (m : Matrix) (x y : ℕ) : m.transpose.at x y = m.at y x := by
  by_cases h : x < m.rows ∧ y < m.cols
  · exact Matrix.build_at _ _ _ x y h.1 h.2
  · rw [Matrix.at_of_ge _ x y (by simpa [Matrix.transpose] using h),
      Matrix.at_of_ge _ y x (by tauto)]

/-- Claim C9: Transpose swaps the dimensions, entry (x,y) of the transpose
is entry (y,x) of the original, and transposing twice yields a matrix with
the original dimensions and the original value at every cell. -/
theorem transpose_spec (A : Matrix) :
    A.transpose.cols = A.rows ∧ A.transpose.rows = A.cols ∧
    (∀ x y, A.transpose.at x y = A.at y x) ∧
    A.transpose.transpose.cols = A.cols ∧ A.transpose.transpose.rows = A.rows ∧
    (∀ x y, A.transpose.transpose.at x y = A.at x y) :=
  ⟨rfl, rfl, fun x y => Matrix.transpose_at A x y, rfl, rfl,
   fun x y => by rw [Matrix.transpose_at, Matrix.transpose_at]⟩

/-- Claim C8: Multiply fails with the shape error exactly when
self.cols ≠ other.rows and otherwise returns the (other.cols × self.rows)
matrix of dot products; Add and MultiplyElements fail exactly when the
(cols,rows) dimension pairs differ and otherwise are elementwise. -/
theorem matrix_binop_spec (A B : Matrix) :
    ((∃ e, A.multiply B = .error e) ↔ A.cols ≠ B.rows) ∧
    (∀ M, A.multiply B = .ok M →
      M.cols = B.cols ∧ M.rows = A.rows ∧
      ∀ x y, x < M.cols → y < M.rows →
        M.at x y = ((List.range A.cols).map (fun k => A.at k y * B.at x k)).sum) ∧
    ((∃ e, A.add B = .error e) ↔ (A.cols ≠ B.cols ∨ A.rows ≠ B.rows)) ∧
    (∀ M, A.add B = .ok M →
      M.cols = A.cols ∧ M.rows = A.rows ∧
      ∀ x y, x < M.cols → y < M.rows → M.at x y = A.at x y + B.at x y) ∧
    ((∃ e, A.multiplyElements B = .error e) ↔ (A.cols ≠ B.cols ∨ A.rows ≠ B.rows)) ∧
    (∀ M, A.multiplyElements B = .ok M →
      M.cols = A.cols ∧ M.rows = A.rows ∧
      ∀ x y, x < M.cols → y < M.rows → M.at x y = A.at x y * B.at x y) := by
  refine ⟨?_, ?_, ?_, ?_, ?_, ?_⟩
  · constructor
    · rintro ⟨e, he⟩ hc
      rw [Matrix.multiply_eq_ok A B hc] at he
      exact Except.noConfusion he
    · intro hc
      exact ⟨"shape error", by simp [Matrix.multiply, hc]⟩
  · intro M hM
    by_cases hc : A.cols = B.rows
    · rw [Matrix.multiply_eq_ok A B hc] at hM
      obtain rfl : A.mulC B = M := by injection hM
      exact ⟨rfl, rfl, fun x y hx hy => Matrix.mulC_at A B x y hx hy⟩
    · simp [Matrix.multiply, hc] at hM
  · constructor
    · rintro ⟨e, he⟩
      by_contra hc
      push_neg at hc
      rw [Matrix.add_eq_ok A B hc.1 hc.2] at he
      exact Except.noConfusion he
    · intro hc
      exact ⟨"shape error", by simp [Matrix.add]; tauto⟩
  · intro M hM
    by_cases hc : A.cols = B.cols ∧ A.rows = B.rows
    · rw [Matrix.add_eq_ok A B hc.1 hc.2] at hM
      obtain rfl : A.addC B = M := by injection hM
      exact ⟨rfl, rfl, fun x y hx hy => Matrix.addC_at A B x y hx hy⟩
    · rw [Matrix.add, if_pos (by tauto)] at hM
      exact Except.noConfusion hM
  · constructor
    · rintro ⟨e, he⟩
      by_contra hc
      push_neg at hc
      rw [Matrix.multiplyElements_eq_ok A B hc.1 hc.2] at he
      exact Except.noConfusion he
    · intro hc
      exact ⟨"shape error", by simp [Matrix.multiplyElements]; tauto⟩
  · intro M hM
    by_cases hc : A.cols = B.cols ∧ A.rows = B.rows
    · rw [Matrix.multiplyElements_eq_ok A B hc.1 hc.2] at hM
      obtain rfl : A.hadC B = M := by injection hM
      exact ⟨rfl, rfl, fun x y hx hy => Matrix.hadC_at A B x y hx hy⟩
    · rw [Matrix.multiplyElements, if_pos (by tauto)] at hM
      exact Except.noConfusion hM

/-- Concrete 2×2 operand for the C8 witness. -/
def mmA : Matrix := ⟨2, 2, [1, 2, 3, 4]⟩

/-- Concrete 2×2 operand for the C8 witness. -/
def mmB : Matrix := ⟨2, 2, [5, 6, 7, 8]⟩

theorem matrix_binop_spec_witness :
    ((mmA.mulC mmB).cols = mmB.cols ∧ (mmA.mulC mmB).rows = mmA.rows ∧
      (mmA.mulC mmB).at 0 0 =
        ((List.range mmA.cols).map (fun k => mmA.at k 0 * mmB.at 0 k)).sum) ∧
    ((mmA.addC mmB).at 1 1 = mmA.at 1 1 + mmB.at 1 1) ∧
    ((mmA.hadC mmB).at 0 1 = mmA.at 0 1 * mmB.at 0 1) := by
  have h := matrix_binop_spec mmA mmB
  refine ⟨?_, ?_, ?_⟩
  · obtain ⟨h1, h2, h3⟩ := h.2.1 (mmA.mulC mmB) (Matrix.multiply_eq_ok mmA mmB (by decide))
    exact ⟨h1, h2, h3 0 0 (by decide) (by decide)⟩
  · obtain ⟨_, _, h3⟩ := h.2.2.2.1 (mmA.addC mmB) (Matrix.add_eq_ok mmA mmB (by decide) (by decide))
    exact h3 1 1 (by decide) (by decide)
  · obtain ⟨_, _, h3⟩ := h.2.2.2.2.2 (mmA.hadC mmB)
      (Matrix.multiplyElements_eq_ok mmA mmB (by decide) (by decide))
    exact h3 0 1 (by decide) (by decide)

/-- DataRow (src/v1/data.go), with the source's field spelling. -/
structure DataRow where
  Input : List ℝ
  Ouput : List ℝ

instance : Inhabited DataRow := ⟨⟨[], []⟩⟩

/-- TrainingData (src/v1/data.go): raw rows, the two partitions filled in
by Prepare, the split ratio, epoch budget, early-stop threshold and the
epoch cursor. -/
structure TrainingData where
  trainingData : List DataRow
  testingData : List DataRow
  Data : List DataRow
  Split : ℝ
  Iterations : ℕ
  TargetError : ℝ
  position : ℕ

def NewTrainingData (iterations : ℕ) (split errMargin : ℝ) : TrainingData :=
  ⟨[], [], [], split, iterations, errMargin, 0⟩

def TrainingData.AddRow (d : TrainingData) (inputs output : List ℝ) : TrainingData :=
  { d with Data := d.Data ++ [⟨inputs, output⟩] }

/-- One pairwise exchange of Prepare's shuffle: index[p1] and index[p2]
are swapped through a temporary, exactly as in the source. -/
def doSwap (l : List ℕ) (p1 p2 : ℕ) : List ℕ :=
  (l.set p1 (l.getD p2 0)).set p2 (l.getD p1 0)

/-- The shuffle loop of Prepare.  The source draws each index pair from
math/rand; the draws are modelled as an explicit list of pairs, each
component of which rand.Intn guarantees to be below len(Data). -/
def applySwaps (swaps : List (ℕ × ℕ)) (l : List ℕ) : List ℕ :=
  swaps.foldl (fun acc p => doSwap acc p.1 p.2) l

/-- TrainingData.Prepare (src/v1/data.go): round(len*Split) rows of the
shuffled order become the training partition, the rest the testing
partition, and the cursor is reset. -/
def TrainingData.Prepare (d : TrainingData) (swaps : List (ℕ × ℕ)) : TrainingData :=
  let trainCount := (round ((d.Data.length : ℝ) * d.Split)).toNat
  let index := applySwaps swaps (List.range d.Data.length)
  let rows := index.map (fun idx => d.Data.getD idx default)
  { d with
    trainingData := rows.take trainCount
    testingData := rows.drop trainCount
    position := 0 }

/-- TrainingData.NextRow: the row under the cursor plus the advanced
state, or the end-of-epoch sentinel with the cursor reset. -/
def TrainingData.NextRow (d : TrainingData) : Option DataRow × TrainingData :=
  if d.trainingData.length ≤ d.position then (none, { d with position := 0 })
  else (some (d.trainingData.getD d.position default), { d with position := d.position + 1 })

def TrainingData.TestData (d : TrainingData) : List DataRow := d.testingData

def TrainingData.TrainingCount (d : TrainingData) : ℕ := d.trainingData.length

def TrainingData.TestCount (d : TrainingData) : ℕ := d.testingData.length

/-- Successive NextRow calls: the list of produced results in order, with
the final TrainingData state. -/
def runNextRow : ℕ → TrainingData → List (Option DataRow) × TrainingData
  | 0, d => ([], d)
  | k + 1, d =>
    let s := d.NextRow
    let r := runNextRow k s.2
    (s.1 :: r.1, r.2)

theorem getD_cons_set_perm (l : List ℕ) (m a : ℕ) (hm : m < l.length) :
    (l.getD m 0 :: l.set m a).Perm (a :: l) := by
  induction l generalizing m with
  | nil => simp at hm
  | cons b t ih =>
    cases m with
    | zero => simpa using List.Perm.swap a b t
    | succ m =>
      have hm' : m < t.length := by simpa using hm
      have s1 : (t.getD m 0 :: b :: t.set m a).Perm (b :: (t.getD m 0 :: t.set m a)) :=
        List.Perm.swap b (t.getD m 0) (t.set m a)
      have s2 : (b :: (t.getD m 0 :: t.set m a)).Perm (b :: (a :: t)) :=
        List.Perm.cons b (ih m hm')
      have s3 : (b :: a :: t).Perm (a :: b :: t) := List.Perm.swap a b t
      simpa using (s1.trans s2).trans s3

theorem doSwap_perm (l : List ℕ) (i j : ℕ) (hi : i < l.length) (hj : j < l.length) :
    (doSwap l i j).Perm l := by
  induction l generalizing i j with
  | nil => simp at hi
  | cons b t ih =>
    cases i with
    | zero =>
      cases j with
      | zero => simp [doSwap]
      | succ m =>
        have hm : m < t.length := by simpa using hj
        simpa [doSwap] using getD_cons_set_perm t m b hm
    | succ k =>
      cases j with
      | zero =>
        have hk : k < t.length := by simpa using hi
        simpa [doSwap] using getD_cons_set_perm t k b hk
      | succ m =>
        have hk : k < t.length := by simpa using hi
        have hm : m < t.length := by simpa using hj
        simpa [doSwap] using List.Perm.cons b (ih k m hk hm)

theorem doSwap_length (l : List ℕ) (i j : ℕ) : (doSwap l i j).length = l.length := by
  simp [doSwap]

theorem applySwaps_perm (swaps : List (ℕ × ℕ)) (l : List ℕ)
    (hs : ∀ p ∈ swaps, p.1 < l.length ∧ p.2 < l.length) :
    (applySwaps swaps l).Perm l := by
  induction swaps generalizing l with
  | nil => exact List.Perm.refl l
  | cons p ps ih =>
    have hp := hs p (by simp)
    have hstep : (doSwap l p.1 p.2).Perm l := doSwap_perm l p.1 p.2 hp.1 hp.2
    have hlen : (doSwap l p.1 p.2).length = l.length := doSwap_length l p.1 p.2
    have hrest : ∀ q ∈ ps, q.1 < (doSwap l p.1 p.2).length ∧ q.2 < (doSwap l p.1 p.2).length := by
      intro q hq
      rw [hlen]
      exact hs q (by simp [hq])
    exact (ih (doSwap l p.1 p.2) hrest).trans hstep

theorem map_getD_range {α : Type} (dflt : α) (l : List α) :
    (List.range l.length).map (fun i => l.getD i dflt) = l := by
  apply List.ext_getElem (by simp)
  intro i h1 h2
  simp [List.getD_eq_getElem l dflt h2, List.getElem?_eq_getElem h2]

/-- Claim C5: with Split in (0,1] Prepare produces exactly
round(len*Split) training rows, the partition sizes sum to the dataset
size, and the two partitions together are a permutation of the rows. -/
theorem prepare_spec (d : TrainingData) (swaps : List (ℕ × ℕ))
    (hs : ∀ p ∈ swaps, p.1 < d.Data.length ∧ p.2 < d.Data.length)
    (h0 : 0 < d.Split) (h1 : d.Split ≤ 1) :
    (d.Prepare swaps).trainingData.length = (round ((d.Data.length : ℝ) * d.Split)).toNat ∧
    (d.Prepare swaps).trainingData.length + (d.Prepare swaps).testingData.length
      = d.Data.length ∧
    ((d.Prepare swaps).trainingData ++ (d.Prepare swaps).testingData).Perm d.Data := by
  set n := d.Data.length with hn
  set tc := (round ((n : ℝ) * d.Split)).toNat with htc
  have hperm : (applySwaps swaps (List.range n)).Perm (List.range n) :=
    applySwaps_perm swaps (List.range n) (by simpa using hs)
  have hlenidx : (applySwaps swaps (List.range n)).length = n := by
    simpa using hperm.length_eq
  have hrows :
      ((applySwaps swaps (List.range n)).map (fun idx => d.Data.getD idx default)).Perm d.Data := by
    have h2 := hperm.map (fun idx => d.Data.getD idx default)
    rw [hn] at h2 ⊢
    exact h2.trans (by rw [map_getD_range])
  have hrowlen : ((applySwaps swaps (List.range n)).map
      (fun idx => d.Data.getD idx default)).length = n := by
    simpa using hlenidx
  have htcle : tc ≤ n := by
    have hmul : (n : ℝ) * d.Split ≤ (n : ℝ) :=
      mul_le_of_le_one_right (by positivity) h1
    have hr : round ((n : ℝ) * d.Split) ≤ round ((n : ℝ) : ℝ) := by
      rw [round_eq, round_eq]
      exact Int.floor_le_floor (by linarith)
    rw [round_natCast] at hr
    rw [htc]
    exact Int.toNat_le.mpr hr
  refine ⟨?_, ?_, ?_⟩
  · simp only [TrainingData.Prepare, List.length_take]
    rw [hrowlen]
    exact min_eq_left htcle
  · simp only [TrainingData.Prepare, List.length_take, List.length_drop]
    rw [hrowlen]
    omega
  · simp only [TrainingData.Prepare]
    rw [List.take_append_drop]
    exact hrows

/-- A concrete 20-row dataset with Split 0.8 for the C5 witness. -/
def d20 : TrainingData :=
  ⟨[], [], List.replicate 20 ⟨[1], [0]⟩, 0.8, 5, 0.1, 0⟩

theorem prepare_spec_witness :
    (d20.Prepare [(0, 1)]).trainingData.length = 16 ∧
    (d20.Prepare [(0, 1)]).testingData.length = 4 ∧
    ((d20.Prepare [(0, 1)]).trainingData ++ (d20.Prepare [(0, 1)]).testingData).Perm
      d20.Data := by
  have hlen : d20.Data.length = 20 := by
    simp [d20]
  have hs : ∀ p ∈ [((0 : ℕ), (1 : ℕ))], p.1 < d20.Data.length ∧ p.2 < d20.Data.length := by
    intro p hp
    rw [hlen]
    simp only [List.mem_singleton] at hp
    simp [hp]
  have h := prepare_spec d20 [(0, 1)] hs (by norm_num [d20]) (by norm_num [d20])
  have hround : (round ((d20.Data.length : ℝ) * d20.Split)).toNat = 16 := by
    rw [hlen]
    have h16 : ((20 : ℕ) : ℝ) * d20.Split = ((16 : ℕ) : ℝ) := by norm_num [d20]
    rw [h16, round_natCast]
    rfl
  refine ⟨by rw [h.1, hround], ?_, h.2.2⟩
  have h2 := h.2.1
  rw [h.1, hround] at h2
  omega

theorem runNextRow_succ (k : ℕ) (d : TrainingData) :
    runNextRow (k + 1) d =
      (d.NextRow.1 :: (runNextRow k d.NextRow.2).1, (runNextRow k d.NextRow.2).2) := rfl

theorem runNextRow_add (a b : ℕ) (d : TrainingData) :
    runNextRow (a + b) d =
      ((runNextRow a d).1 ++ (runNextRow b (runNextRow a d).2).1,
        (runNextRow b (runNextRow a d).2).2) := by
  induction a generalizing d with
  | zero => simp [runNextRow]
  | succ a ih =>
    have hab : a + 1 + b = (a + b) + 1 := by omega
    rw [hab]
    simp only [runNextRow]
    rw [ih]
    simp

theorem runNextRow_from (d : TrainingData) :
    ∀ n j, j ≤ d.trainingData.length → d.trainingData.length - j = n →
      runNextRow (n + 1) { d with position := j } =
        ((d.trainingData.drop j).map some ++ [none], { d with position := 0 }) := by
  intro n
  induction n with
  | zero =>
    intro j hj hn
    have hj' : j = d.trainingData.length := by omega
    subst hj'
    simp [runNextRow, TrainingData.NextRow]
  | succ n ih =>
    intro j hj hn
    have hjL : j < d.trainingData.length := by omega
    have hstep : TrainingData.NextRow { d with position := j } =
        (some (d.trainingData.getD j default), { d with position := j + 1 }) := by
      simp only [TrainingData.NextRow]
      rw [if_neg (by simp; omega)]
    have hrec := ih (j + 1) (by omega) (by omega)
    have hgd : d.trainingData.getD j default = d.trainingData[j] :=
      List.getD_eq_getElem _ _ hjL
    have hdrop : d.trainingData.drop j = d.trainingData[j] :: d.trainingData.drop (j + 1) :=
      List.drop_eq_getElem_cons hjL
    have hfin : List.drop j (List.map some d.trainingData) ++ [none] =
        some d.trainingData[j] :: (List.drop (j + 1) (List.map some d.trainingData) ++ [none]) := by
      rw [List.drop_eq_getElem_cons (show j < (List.map some d.trainingData).length by
        simpa using hjL)]
      simp
    rw [runNextRow_succ, hstep]
    simp only [hrec]
    rw [hgd]
    simp [hfin]

theorem position_zero_eta (d : TrainingData) (h0 : d.position = 0) :
    ({ d with position := 0 } : TrainingData) = d := by
  cases d
  simp_all

/-- Claim C6: with the cursor at 0, each of the first trainCount calls to
NextRow returns the row under the cursor and advances it, the next call
returns the sentinel and resets the cursor, and the whole cycle repeats
identically. -/
theorem nextRow_spec (d : TrainingData) (h0 : d.position = 0) :
    (∀ j, j < d.trainingData.length →
      TrainingData.NextRow { d with position := j } =
        (some (d.trainingData.getD j default), { d with position := j + 1 })) ∧
    runNextRow (d.trainingData.length + 1) d = (d.trainingData.map some ++ [none], d) ∧
    runNextRow (2 * (d.trainingData.length + 1)) d =
      ((d.trainingData.map some ++ [none]) ++ (d.trainingData.map some ++ [none]), d) := by
  have hmain : runNextRow (d.trainingData.length + 1) d =
      (d.trainingData.map some ++ [none], d) := by
    have h := runNextRow_from d d.trainingData.length 0 (by omega) (by omega)
    rw [position_zero_eta d h0] at h
    simpa using h
  refine ⟨?_, hmain, ?_⟩
  · intro j hj
    simp only [TrainingData.NextRow]
    rw [if_neg (by simp; omega)]
  · have h2 : 2 * (d.trainingData.length + 1) =
        (d.trainingData.length + 1) + (d.trainingData.length + 1) := by omega
    rw [h2, runNextRow_add, hmain]
    simp [hmain]

/-- A concrete prepared dataset for the C6 witness. -/
def tdW : TrainingData :=
  ⟨[⟨[1], [0]⟩, ⟨[0], [1]⟩], [], [], 1, 1, 0.5, 0⟩

theorem nextRow_spec_witness :
    tdW.position = 0 ∧
    runNextRow (tdW.trainingData.length + 1) tdW = (tdW.trainingData.map some ++ [none], tdW) :=
  ⟨rfl, (nextRow_spec tdW rfl).2.1⟩

def NeuralFunction := ℝ → ℝ

/-- The activation strategy pair used by the network: forward value F and
derivative Df (src/v1, activation function registry). -/
structure ActivationSolver where
  F : ℝ → ℝ
  Df : ℝ → ℝ

/-- The enumerated activation selectors, in the source's declaration
order (their numeric ids are the positions 0..8). -/
inductive ActivationFunction
  | Sigmoid
  | Relu
  | Tanh
  | LeakyRelu
  | Softplus
  | Swish
  | ELU
  | GELU
  | Linear
deriving DecidableEq

/-- The activation registry: each selector resolves to its (F, Df) pair,
with each derivative written in terms of the already-computed forward
output exactly as in the source. -/
def GetActivationFunctions : ActivationFunction → ActivationSolver
  | .Sigmoid => ⟨fun v => 1 / (1 + Real.exp (-v)), fun v => v * (1 - v)⟩
  | .Relu => ⟨fun v => max 0 v, fun v => if v > 0 then 1 else 0⟩
  | .Tanh => ⟨fun v => Real.tanh v, fun v => 1 - v * v⟩
  | .LeakyRelu => ⟨fun v => if v > 0 then v else 0.01 * v, fun v => if v > 0 then 1 else 0.01⟩
  | .Softplus => ⟨fun v => Real.log (1 + Real.exp v), fun v => 1 / (1 + Real.exp (-v))⟩
  | .Swish => ⟨fun v => v / (1 + Real.exp (-v)),
      fun v => v / (1 + Real.exp (-v)) * (1 - v / (1 + Real.exp (-v)))⟩
  | .ELU => ⟨fun v => if v > 0 then v else Real.exp v - 1,
      fun v => if v > 0 then 1 else Real.exp v⟩
  | .GELU => ⟨fun v => 0.5 * v * (1 + Real.tanh (Real.sqrt (2 / Real.pi) *
        (v + 0.044715 * v ^ 3))),
      fun v => 0.5 * (1 + Real.tanh (Real.sqrt (2 / Real.pi) * (v + 0.044715 * v ^ 3))) +
        0.5 * Real.tanh (Real.sqrt (2 / Real.pi) * (v + 0.044715 * v ^ 3)) ^ 2⟩
  | .Linear => ⟨fun v => v, fun _ => 1⟩

/-- The enumerated error-function selectors, in source order. -/
inductive ErrorFunction
  | MeanSquaredError
  | MeanAbsoluteError
  | BinaryCrossEntropy
  | CategoricalCrossEntropy
deriving DecidableEq

/-- The error strategy: Calculate is the reduction the training loop
calls (the source passes the target list first, then the prediction). -/
structure ErrorSolver where
  Calculate : List ℝ → List ℝ → ℝ

/-- The error registry (src/v1/errorfunctions.go). -/
def GetErrorFunction : ErrorFunction → ErrorSolver
  | .MeanSquaredError => ⟨fun vs tgts =>
      (((List.range vs.length).map (fun i => (vs.getD i 0 - tgts.getD i 0) ^ 2)).sum) /
        (vs.length : ℝ)⟩
  | .MeanAbsoluteError => ⟨fun vs tgts =>
      (((List.range vs.length).map (fun i => |vs.getD i 0 - tgts.getD i 0|)).sum) /
        (vs.length : ℝ)⟩
  | .BinaryCrossEntropy => ⟨fun vs tgts =>
      (((List.range vs.length).map (fun i => -(tgts.getD i 0 * Real.log (vs.getD i 0) +
        (1 - tgts.getD i 0) * Real.log (1 - vs.getD i 0)))).sum) / (vs.length : ℝ)⟩
  | .CategoricalCrossEntropy => ⟨fun vs tgts =>
      (((List.range vs.length).map (fun i => -(tgts.getD i 0 * Real.log (vs.getD i 0)))).sum) /
        (vs.length : ℝ)⟩

/-- Network (src/v1/network.go).  The value matrices slice starts as
nil pointers in Go; here it is a list of placeholder matrices that a
feedForward call replaces wholesale. -/
structure Network where
  topology : List ℕ
  weightMatrices : List Matrix
  valueMatrices : List Matrix
  biasMatrices : List Matrix
  learningRate : ℝ
  activation : ActivationFunction
  solver : ActivationSolver
  output : ActivationFunction
  outputSolver : ActivationSolver
  errFunc : ErrorFunction
  errorSolver : ErrorSolver
  debug : Bool
  sm : Bool

/-- softMax (src/v1/network.go).  The source's comment says it sums the
exponentials, but the loop adds the raw input value v to total while
storing exp(v); each stored entry is then exp(v_i) divided by the sum of
the raw values. -/
def softMax (vs : Matrix) : Matrix :=
  NewMatrixFromSlice (vs.values.map (fun v => Real.exp v / vs.values.sum))

/-- The layer loop of feedForward: cache the incoming values, multiply by
the weights, add the bias, and apply the hidden activation except on the
last layer, which gets the output activation. -/
def ffLoop (solver outSolver : ActivationSolver) :
    List Matrix → List Matrix → Matrix → Except String (List Matrix × Matrix)
  | [], _, values => .ok ([], values)
  | _ :: _, [], _ => .error "missing bias"
  | w :: ws, b :: bs, values => do
    let v1 ← values.multiply w
    let v2 ← v1.add b
    let v3 := v2.applyFunction (if ws.isEmpty then outSolver.F else solver.F)
    let r ← ffLoop solver outSolver ws bs v3
    .ok (values :: r.1, r.2)

/-- feedForward (src/v1/network.go): checks the input length against
topology[0], runs the layers, and stores the cached values, the last
entry being soft-maxed when sm is set. -/
def Network.feedForward (n : Network) (input : List ℝ) : Except String Network :=
  if input.length ≠ n.topology.getD 0 0 then .error "incorrect input size"
  else
    match ffLoop n.solver n.outputSolver n.weightMatrices n.biasMatrices
        ⟨input.length, 1, input⟩ with
    | .error e => .error ("feed forward error: " ++ e)
    | .ok r => .ok { n with valueMatrices := r.1 ++ [if n.sm then softMax r.2 else r.2] }

/-- getPrediction: the values of the last cached layer. -/
def Network.getPrediction (n : Network) : List ℝ :=
  (n.valueMatrices.getD (n.valueMatrices.length - 1) default).values

/-- Predict: one feedForward, then the cached output values. -/
def Network.Predict (n : Network) (input : List ℝ) : Except String (List ℝ) :=
  match n.feedForward input with
  | .error e => .error ("prediction error: " ++ e)
  | .ok n' => .ok n'.getPrediction

/-- One iteration of backPropagate's layer loop at index i: propagate the
error through the transposed current weights, build the learning-rate
scaled gradient from the hidden solver's derivative of the cached layer
output, and add the outer-product delta and the gradient in place. -/
def bpStep (n : Network) (errMtx : Matrix) (i : ℕ) : Except String (Network × Matrix) := do
  let prevErrors ← errMtx.multiply (n.weightMatrices.getD i default).transpose
  let dOutputs := (n.valueMatrices.getD (i + 1) default).applyFunction n.solver.Df
  let gradients ← errMtx.multiplyElements dOutputs
  let gradients2 := gradients.multiplyScalar n.learningRate
  let weightGradients ← (n.valueMatrices.getD i default).transpose.multiply gradients2
  let w ← (n.weightMatrices.getD i default).add weightGradients
  let b ← (n.biasMatrices.getD i default).add gradients2
  .ok ({ n with
          weightMatrices := n.weightMatrices.set i w
          biasMatrices := n.biasMatrices.set i b }, prevErrors)

/-- backPropagate's descending layer loop: indices i, i-1, ..., 0. -/
def bpLoop : ℕ → Network → Matrix → Except String Network
  | 0, n, errMtx => do
    let r ← bpStep n errMtx 0
    .ok r.1
  | i + 1, n, errMtx => do
    let r ← bpStep n errMtx (i + 1)
    bpLoop i r.1 r.2

/-- backPropagate (src/v1/network.go): checks the target length against
the last topology entry, forms the output error as target plus the
negated cached output, and runs the descending layer loop. -/
def Network.backPropagate (n : Network) (tgtOut : List ℝ) : Except String Network :=
  if tgtOut.length ≠ n.topology.getD (n.topology.length - 1) 0 then
    .error "output is incorrect size"
  else
    match (⟨tgtOut.length, 1, tgtOut⟩ : Matrix).add
        (n.valueMatrices.getD (n.valueMatrices.length - 1) default).negative with
    | .error e => .error ("back propagation error: " ++ e)
    | .ok errMtx =>
      match n.weightMatrices.length with
      | 0 => .ok n
      | L + 1 =>
        match bpLoop L n errMtx with
        | .error e => .error ("back propagation error: " ++ e)
        | .ok n' => .ok n'

/-- One epoch of Train's inner loop: every training row once, each row a
feedForward followed by a backPropagate, first failure propagated. -/
def epochRun (n : Network) (rows : List DataRow) : Except String Network :=
  rows.foldlM (fun acc row => do
    let n1 ← acc.feedForward row.Input
    n1.backPropagate row.Ouput) n

/-- The per-epoch test evaluation: predict every test row and apply the
error solver (target list first, prediction second, as in the source). -/
def testErrors (n : Network) (tests : List DataRow) : Except String (List ℝ) :=
  tests.mapM (fun row => do
    let answer ← n.Predict row.Input
    .ok (n.errorSolver.Calculate row.Ouput answer))

/-- Train's epoch loop (src/v1/network.go, Train): run an epoch, compute
the mean test error, stop early when every test error is within the
target and the mean is too, otherwise continue with the remaining epoch
budget; the last computed mean is returned when the budget runs out. -/
def trainLoop (trainRows testRows : List DataRow) (target : ℝ) :
    ℕ → Network → ℝ → Except String (ℝ × Network)
  | 0, n, errSum => .ok (errSum, n)
  | fuel + 1, n, _ => do
    let n1 ← epochRun n trainRows
    let errs ← testErrors n1 testRows
    let s := errs.sum / (errs.length : ℝ)
    if (∀ v ∈ errs, ¬ target < v) ∧ s ≤ target then .ok (s, n1)
    else trainLoop trainRows testRows target fuel n1 s

/-- Train: Prepare the data (randomness as an explicit swap list), then
run the epoch loop with the configured budget. -/
def Network.Train (n : Network) (td : TrainingData) (swaps : List (ℕ × ℕ)) :
    Except String (ℝ × Network) :=
  trainLoop (td.Prepare swaps).trainingData (td.Prepare swaps).testingData
    (td.Prepare swaps).TargetError (td.Prepare swaps).Iterations n 0

theorem exceptBindOk {α β : Type} (a : α) (f : α → Except String β) :
    (Except.ok a : Except String α) >>= f = f a := rfl

theorem exceptMapOk {α β : Type} (a : α) (f : α → β) :
    Except.map f (Except.ok a : Except String α) = .ok (f a) := rfl

theorem exceptBindErr {α β : Type} (e : String) (f : α → Except String β) :
    (Except.error e : Except String α) >>= f = .error e := rfl

/-- A concrete softmax-enabled network: topology [1,2], Linear
activations, weights [1,1], biases [0,0], whose raw output on input [1]
is [1,1]. -/
def smNet : Network :=
  ⟨[1, 2], [⟨2, 1, [1, 1]⟩], [default, default], [⟨2, 1, [0, 0]⟩], 0.1,
   .Linear, GetActivationFunctions .Linear, .Linear, GetActivationFunctions .Linear,
   .MeanSquaredError, GetErrorFunction .MeanSquaredError, false, true⟩

/-- Claim C1 is violated by the code: with sm enabled and raw output
values [1,1], feedForward stores exp(1)/2 in each output cell — the
exponential divided by the sum of the RAW values — so the stored entries
sum to exp(1) ≠ 1, while a correct softmax of [1,1] would store
exp(1)/(exp(1)+exp(1)) = 1/2 in each cell. -/
theorem softmax_raw_sum_bug :
    ((smNet.feedForward [1]).map Network.getPrediction) =
      .ok [Real.exp 1 / 2, Real.exp 1 / 2] ∧
    Real.exp 1 / 2 + Real.exp 1 / 2 ≠ 1 ∧
    Real.exp 1 / (Real.exp 1 + Real.exp 1) = 1 / 2 := by
  refine ⟨?_, ?_, ?_⟩
  · have hmul : (⟨1, 1, [1]⟩ : Matrix).multiply ⟨2, 1, [1, 1]⟩ = .ok ⟨2, 1, [1, 1]⟩ := by
      simp [Matrix.multiply, Matrix.mulC, Matrix.build, Matrix.at]
      norm_num [List.range_succ]
    have hadd : (⟨2, 1, [1, 1]⟩ : Matrix).add ⟨2, 1, [0, 0]⟩ = .ok ⟨2, 1, [1, 1]⟩ := by
      simp [Matrix.add, Matrix.addC, Matrix.build, Matrix.at]
      norm_num [List.range_succ]
    have happ : (⟨2, 1, [1, 1]⟩ : Matrix).applyFunction (GetActivationFunctions .Linear).F =
        ⟨2, 1, [1, 1]⟩ := by
      simp [Matrix.applyFunction, Matrix.build, Matrix.at, GetActivationFunctions]
      norm_num [List.range_succ]
    have hff : ffLoop (GetActivationFunctions .Linear) (GetActivationFunctions .Linear)
        [⟨2, 1, [1, 1]⟩] [⟨2, 1, [0, 0]⟩] ⟨1, 1, [1]⟩ =
        .ok ([⟨1, 1, [1]⟩], ⟨2, 1, [1, 1]⟩) := by
      simp [ffLoop, hmul, hadd, happ, exceptBindOk]
    have hsm : softMax ⟨2, 1, [1, 1]⟩ = ⟨2, 1, [Real.exp 1 / 2, Real.exp 1 / 2]⟩ := by
      simp [softMax, NewMatrixFromSlice]
      norm_num
    have hffull : smNet.feedForward [1] = .ok { smNet with
        valueMatrices := [⟨1, 1, [1]⟩, ⟨2, 1, [Real.exp 1 / 2, Real.exp 1 / 2]⟩] } := by
      rw [Network.feedForward, if_neg (by simp [smNet])]
      rw [show (⟨[(1 : ℝ)].length, 1, [1]⟩ : Matrix) = ⟨1, 1, [1]⟩ from rfl]
      rw [show smNet.solver = GetActivationFunctions .Linear from rfl,
          show smNet.outputSolver = GetActivationFunctions .Linear from rfl,
          show smNet.weightMatrices = [⟨2, 1, [1, 1]⟩] from rfl,
          show smNet.biasMatrices = [⟨2, 1, [0, 0]⟩] from rfl, hff]
      simp [smNet, hsm]
    rw [hffull]
    simp [exceptMapOk, Network.getPrediction, List.getD]
  · intro h
    have hsum : Real.exp 1 / 2 + Real.exp 1 / 2 = Real.exp 1 := by ring
    rw [hsum] at h
    have := Real.exp_one_gt_d9
    norm_num at this
    linarith
  · have hne : Real.exp 1 ≠ 0 := Real.exp_ne_zero 1
    field_simp
    ring

/-- MatrixSaveData (v2): the per-matrix sub-record serialized under the
keys c, r, v. -/
structure MatrixSaveData where
  Cols : ℕ
  Rows : ℕ
  Values : List ℝ

/-- The values a serialized field can hold, at the granularity the field
names act on. -/
inductive JVal
  | jnats (l : List ℕ)
  | jmats (l : List Matrix)
  | jnum (v : ℝ)
  | jint (v : ℤ)
  | jbool (b : Bool)
  | jsaves (l : List MatrixSaveData)

/-- The numeric id of an activation selector (its iota position). -/
def activationId : ActivationFunction → ℤ
  | .Sigmoid => 0
  | .Relu => 1
  | .Tanh => 2
  | .LeakyRelu => 3
  | .Softplus => 4
  | .Swish => 5
  | .ELU => 6
  | .GELU => 7
  | .Linear => 8

/-- The numeric id of an error selector (its iota position). -/
def errorId : ErrorFunction → ℤ
  | .MeanSquaredError => 0
  | .MeanAbsoluteError => 1
  | .BinaryCrossEntropy => 2
  | .CategoricalCrossEntropy => 3

/-- Network.MarshalJSON (src/v1/network.go): the serialized document as
the association of JSON field names to field contents, with the key of
each field taken from the source's struct tags. -/
def Network.MarshalJSON (n : Network) : List (String × JVal) :=
  [("t", .jnats n.topology),
   ("w", .jmats n.weightMatrices),
   ("b", .jmats n.biasMatrices),
   ("k", .jnum n.learningRate),
   ("a", .jint (activationId n.activation)),
   ("o", .jint (activationId n.output)),
   ("e", .jint (errorId n.errFunc)),
   ("d", .jbool n.debug),
   ("s", .jbool n.sm)]

/-- SaveData (src/v2/network.go): the v2 snapshot record. -/
structure SaveData where
  Topology : List ℕ
  WeightMatrices : List MatrixSaveData
  BiasMatrices : List MatrixSaveData
  LearningRate : ℝ
  Functions : ℕ

/-- The v2 SaveData serialized document with its struct-tag keys. -/
def SaveData.marshalJSON (s : SaveData) : List (String × JVal) :=
  [("t", .jnats s.Topology),
   ("w", .jsaves s.WeightMatrices),
   ("b", .jsaves s.BiasMatrices),
   ("l", .jnum s.LearningRate),
   ("f", .jint (s.Functions : ℤ))]

/-- A concrete network for the C4 counterexample. -/
def nC4 : Network :=
  ⟨[1, 1], [⟨1, 1, [1]⟩], [default, default], [⟨1, 1, [0]⟩], 0.5,
   .Sigmoid, GetActivationFunctions .Sigmoid, .Sigmoid, GetActivationFunctions .Sigmoid,
   .MeanSquaredError, GetErrorFunction .MeanSquaredError, false, false⟩

/-- Claim C4 as stated is false of the v1 encoder: the document produced
by Network.MarshalJSON has no "l" and no "f" field at all; its learning
rate sits under "k". -/
theorem marshal_keys_counterexample :
    nC4.MarshalJSON.lookup "l" = none ∧
    nC4.MarshalJSON.lookup "f" = none ∧
    nC4.MarshalJSON.lookup "k" = some (.jnum nC4.learningRate) := by
  refine ⟨?_, ?_, ?_⟩ <;> rfl

/-- Claim C4 amended: the v2 SaveData document stores the learning rate
under "l" and the selector id under "f" (topology "t", weights "w",
biases "b"), but the v1 Network.MarshalJSON document stores the learning
rate under "k" and the activation selector under "a" and has no "l" or
"f" field, so the "l" and "f" names are not stable across the two
encoders. -/
theorem marshal_keys_spec (n : Network) (s : SaveData) :
    n.MarshalJSON.lookup "t" = some (.jnats n.topology) ∧
    n.MarshalJSON.lookup "w" = some (.jmats n.weightMatrices) ∧
    n.MarshalJSON.lookup "b" = some (.jmats n.biasMatrices) ∧
    n.MarshalJSON.lookup "k" = some (.jnum n.learningRate) ∧
    n.MarshalJSON.lookup "a" = some (.jint (activationId n.activation)) ∧
    n.MarshalJSON.lookup "l" = none ∧
    n.MarshalJSON.lookup "f" = none ∧
    s.marshalJSON.lookup "t" = some (.jnats s.Topology) ∧
    s.marshalJSON.lookup "w" = some (.jsaves s.WeightMatrices) ∧
    s.marshalJSON.lookup "b" = some (.jsaves s.BiasMatrices) ∧
    s.marshalJSON.lookup "l" = some (.jnum s.LearningRate) ∧
    s.marshalJSON.lookup "f" = some (.jint (s.Functions : ℤ)) := by
  refine ⟨?_, ?_, ?_, ?_, ?_, ?_, ?_, ?_, ?_, ?_, ?_, ?_⟩ <;> rfl

/-- The v1 snapshot record: exactly the data MarshalJSON writes and
UnmarshalJSON reads (topology, weight and bias matrices, learning rate,
the three selector ids and the two flags). -/
structure NetSnapshot where
  Topology : List ℕ
  WeightMatrices : List Matrix
  BiasMatrices : List Matrix
  LearningRate : ℝ
  Activation : ActivationFunction
  Output : ActivationFunction
  ErrFunc : ErrorFunction
  Debug : Bool
  SM : Bool

/-- Export: copy the persisted fields out of the network. -/
def Network.save (n : Network) : NetSnapshot :=
  ⟨n.topology, n.weightMatrices, n.biasMatrices, n.learningRate,
   n.activation, n.output, n.errFunc, n.debug, n.sm⟩

/-- Import (UnmarshalJSON): restore the persisted fields, re-resolve the
three solver functions from their selector ids, and rebuild the value
cache as a fresh placeholder list sized from the topology. -/
def Network.load (s : NetSnapshot) : Network :=
  ⟨s.Topology, s.WeightMatrices, List.replicate s.Topology.length default,
   s.BiasMatrices, s.LearningRate, s.Activation, GetActivationFunctions s.Activation,
   s.Output, GetActivationFunctions s.Output, s.ErrFunc, GetErrorFunction s.ErrFunc,
   s.Debug, s.SM⟩

/-- Claim C7: exporting a network and importing the snapshot yields a
network whose Predict agrees exactly with the original on every input.
The hypotheses are the registry invariants every constructed or imported
network satisfies: its cached solvers are the registry entries of its
selector ids. -/
theorem save_load_predict_roundtrip (n : Network)
    (hs : n.solver = GetActivationFunctions n.activation)
    (ho : n.outputSolver = GetActivationFunctions n.output) :
    ∀ input, (Network.load n.save).Predict input = n.Predict input := by
  intro input
  have e1 : (Network.load n.save).solver = n.solver := by rw [hs]; rfl
  have e2 : (Network.load n.save).outputSolver = n.outputSolver := by rw [ho]; rfl
  unfold Network.Predict Network.feedForward
  rw [e1, e2]
  rw [show (Network.load n.save).topology = n.topology from rfl]
  rw [show (Network.load n.save).weightMatrices = n.weightMatrices from rfl]
  rw [show (Network.load n.save).biasMatrices = n.biasMatrices from rfl]
  rw [show (Network.load n.save).sm = n.sm from rfl]
  by_cases hlen : input.length ≠ n.topology.getD 0 0
  · rw [if_pos hlen, if_pos hlen]
  · rw [if_neg hlen, if_neg hlen]
    cases hres : ffLoop n.solver n.outputSolver n.weightMatrices n.biasMatrices
        ⟨input.length, 1, input⟩ with
    | error e => rfl
    | ok r => simp [Network.getPrediction]

/-- A concrete network satisfying the registry invariants, for the C7
witness. -/
def n7 : Network :=
  ⟨[1, 1], [⟨1, 1, [1]⟩], [default, default], [⟨1, 1, [0]⟩], 0.1,
   .Sigmoid, GetActivationFunctions .Sigmoid, .Linear, GetActivationFunctions .Linear,
   .MeanSquaredError, GetErrorFunction .MeanSquaredError, false, false⟩

theorem save_load_predict_roundtrip_witness :
    (Network.load n7.save).Predict [0] = n7.Predict [0] :=
  save_load_predict_roundtrip n7 rfl rfl [0]

/-- Claim C3: one epoch of the Train loop.  After running the epoch and
computing the per-test-row errors and their mean s, the loop stops and
returns s exactly when every test error is within the target and s is
within the target; otherwise it continues with the remaining budget; with
an exhausted budget it returns the last computed mean.  Together the
three parts say the loop stops before the budget runs out exactly when
the tolerance condition holds at the end of an epoch, that it then runs
no further epoch, and that the returned value is the final mean test
error. -/
theorem train_loop_spec (trainRows testRows : List DataRow) (t : ℝ) (fuel : ℕ)
    (n n₁ : Network) (errs : List ℝ) (s s₀ : ℝ)
    (hep : epochRun n trainRows = .ok n₁)
    (hte : testErrors n₁ testRows = .ok errs)
    (hsv : s = errs.sum / (errs.length : ℝ)) :
    ((((∀ v ∈ errs, ¬ t < v) ∧ s ≤ t) →
        trainLoop trainRows testRows t (fuel + 1) n s₀ = .ok (s, n₁)) ∧
      ((¬((∀ v ∈ errs, ¬ t < v) ∧ s ≤ t)) →
        trainLoop trainRows testRows t (fuel + 1) n s₀ =
          trainLoop trainRows testRows t fuel n₁ s) ∧
      trainLoop trainRows testRows t 0 n s₀ = .ok (s₀, n)) := by
  have hunfold : trainLoop trainRows testRows t (fuel + 1) n s₀ =
      (if (∀ v ∈ errs, ¬ t < v) ∧ s ≤ t then .ok (s, n₁)
       else trainLoop trainRows testRows t fuel n₁ s) := by
    rw [trainLoop, hep]
    simp only [exceptBindOk]
    rw [hte]
    simp only [exceptBindOk]
    rw [← hsv]
  refine ⟨?_, ?_, rfl⟩
  · intro h
    rw [hunfold, if_pos h]
  · intro h
    rw [hunfold, if_neg h]

/-- A minimal network for the C3 witness. -/
def nW3 : Network :=
  ⟨[1, 1], [⟨1, 1, [1]⟩], [default, default], [⟨1, 1, [0]⟩], 0.1,
   .Linear, GetActivationFunctions .Linear, .Linear, GetActivationFunctions .Linear,
   .MeanSquaredError, GetErrorFunction .MeanSquaredError, false, false⟩

theorem train_loop_spec_witness :
    trainLoop [] [⟨[0], [0]⟩] 1 1 nW3 5 = .ok (0, nW3) := by
  have hmul : (⟨1, 1, [0]⟩ : Matrix).multiply ⟨1, 1, [1]⟩ = .ok ⟨1, 1, [0]⟩ := by
    simp [Matrix.multiply, Matrix.mulC, Matrix.build, Matrix.at]
  have hadd : (⟨1, 1, [0]⟩ : Matrix).add ⟨1, 1, [0]⟩ = .ok ⟨1, 1, [0]⟩ := by
    simp [Matrix.add, Matrix.addC, Matrix.build, Matrix.at]
  have happ : (⟨1, 1, [0]⟩ : Matrix).applyFunction (GetActivationFunctions .Linear).F =
      ⟨1, 1, [0]⟩ := by
    simp [Matrix.applyFunction, Matrix.build, Matrix.at, GetActivationFunctions]
  have hffl : ffLoop (GetActivationFunctions .Linear) (GetActivationFunctions .Linear)
      [⟨1, 1, [1]⟩] [⟨1, 1, [0]⟩] ⟨1, 1, [0]⟩ = .ok ([⟨1, 1, [0]⟩], ⟨1, 1, [0]⟩) := by
    simp [ffLoop, hmul, hadd, happ, exceptBindOk]
  have hff : nW3.feedForward [0] = .ok { nW3 with
      valueMatrices := [⟨1, 1, [0]⟩, ⟨1, 1, [0]⟩] } := by
    rw [Network.feedForward, if_neg (by simp [nW3])]
    rw [show (⟨[(0 : ℝ)].length, 1, [0]⟩ : Matrix) = ⟨1, 1, [0]⟩ from rfl]
    rw [show nW3.solver = GetActivationFunctions .Linear from rfl,
        show nW3.outputSolver = GetActivationFunctions .Linear from rfl,
        show nW3.weightMatrices = [⟨1, 1, [1]⟩] from rfl,
        show nW3.biasMatrices = [⟨1, 1, [0]⟩] from rfl, hffl]
    simp [nW3]
  have hPred : nW3.Predict [0] = .ok [0] := by
    rw [Network.Predict, hff]
    simp [Network.getPrediction, List.getD]
  have hCalc : nW3.errorSolver.Calculate [0] [0] = 0 := by
    show (GetErrorFunction .MeanSquaredError).Calculate [0] [0] = 0
    simp [GetErrorFunction]
  have hte : testErrors nW3 [⟨[0], [0]⟩] = .ok [0] := by
    simp [testErrors, List.mapM, List.mapM.loop, hPred, exceptBindOk, hCalc]
  have h := train_loop_spec [] [⟨[0], [0]⟩] 1 0 nW3 nW3 [0] 0 5 rfl hte (by simp)
  exact h.1 ⟨by simp, by norm_num⟩

/-- Elementwise subtraction, used to state the specified output error
"target minus predicted". -/
def Matrix.subC (m tgt : Matrix) : Matrix :=
  Matrix.build m.cols m.rows (fun x y => m.at x y - tgt.at x y)

theorem Matrix.negative_at (m : Matrix) (x y : ℕ) : m.negative.at x y = -(m.at x y) := by
  by_cases h : x < m.cols ∧ y < m.rows
  · exact Matrix.build_at _ _ _ x y h.1 h.2
  · rw [Matrix.at_of_ge _ x y (by simpa [Matrix.negative] using h),
      Matrix.at_of_ge _ x y h]
    ring

theorem Matrix.build_congr (c r : ℕ) (f g : ℕ → ℕ → ℝ)
    (h : ∀ x y, x < c → y < r → f x y = g x y) :
    Matrix.build c r f = Matrix.build c r g := by
  simp only [Matrix.build, Matrix.mk.injEq]
  refine ⟨trivial, trivial, List.map_congr_left ?_⟩
  intro i hi
  rw [List.mem_range] at hi
  have hc : 0 < c := by
    rcases Nat.eq_zero_or_pos c with h0 | h0
    · subst h0
      simp at hi
    · exact h0
  exact h _ _ (Nat.mod_lt i hc) ((Nat.div_lt_iff_lt_mul hc).mpr hi)

/-- The i-th topology entry. -/
def Network.topo (n : Network) (i : ℕ) : ℕ := n.topology.getD i 0

/-- The structural well-formedness every constructed network enjoys: list
lengths tied to the topology and every matrix dimensioned per its layer
(value matrices as cached by a feedForward call). -/
def NetShapes (n : Network) : Prop :=
  2 ≤ n.topology.length ∧
  n.weightMatrices.length = n.topology.length - 1 ∧
  n.biasMatrices.length = n.topology.length - 1 ∧
  n.valueMatrices.length = n.topology.length ∧
  (∀ i, i < n.topology.length - 1 →
    (n.weightMatrices.getD i default).cols = n.topo (i + 1) ∧
    (n.weightMatrices.getD i default).rows = n.topo i ∧
    (n.biasMatrices.getD i default).cols = n.topo (i + 1) ∧
    (n.biasMatrices.getD i default).rows = 1) ∧
  (∀ i, i < n.topology.length →
    (n.valueMatrices.getD i default).cols = n.topo i ∧
    (n.valueMatrices.getD i default).rows = 1)

/-- The specified output-layer error: target minus the cached prediction
(the last value matrix). -/
def Network.outErr (n : Network) (tgt : List ℝ) : Matrix :=
  Matrix.subC ⟨tgt.length, 1, tgt⟩
    (n.valueMatrices.getD (n.valueMatrices.length - 1) default)

/-- The specified error at each depth of the backward pass: the output
error propagated k layers back, each step multiplying by the transpose of
the not-yet-updated weight matrix of that layer. -/
def Network.bpErr (n : Network) (tgt : List ℝ) : ℕ → Matrix
  | 0 => n.outErr tgt
  | k + 1 => (n.bpErr tgt k).mulC
      ((n.weightMatrices.getD (n.weightMatrices.length - 1 - k) default).transpose)

/-- The specified learning-rate-scaled gradient at layer i: the error
arriving at layer i+1, elementwise times the hidden solver's derivative
of the cached layer-i+1 output, scaled by the learning rate. -/
def Network.bpGrad (n : Network) (tgt : List ℝ) (i : ℕ) : Matrix :=
  ((n.bpErr tgt (n.weightMatrices.length - 1 - i)).hadC
    ((n.valueMatrices.getD (i + 1) default).applyFunction n.solver.Df)).multiplyScalar
      n.learningRate

theorem bpErr_shape (n : Network) (tgt : List ℝ) (hs : NetShapes n)
    (hlen : tgt.length = n.topology.getD (n.topology.length - 1) 0) :
    ∀ k, k ≤ n.weightMatrices.length →
      (n.bpErr tgt k).cols = n.topo (n.weightMatrices.length - k) ∧
      (n.bpErr tgt k).rows = 1 := by
  obtain ⟨htl, hwl, hbl, hvl, hwb, hv⟩ := hs
  intro k
  induction k with
  | zero =>
    intro _
    refine ⟨?_, rfl⟩
    show tgt.length = n.topo (n.weightMatrices.length - 0)
    rw [hlen, Network.topo, hwl, Nat.sub_zero]
  | succ k ih =>
    intro hk
    have hk' : k ≤ n.weightMatrices.length := by omega
    have hidx : n.weightMatrices.length - 1 - k < n.topology.length - 1 := by omega
    obtain ⟨hwc, hwr, _, _⟩ := hwb _ hidx
    refine ⟨?_, ?_⟩
    · show ((n.weightMatrices.getD (n.weightMatrices.length - 1 - k) default).transpose).cols = _
      show (n.weightMatrices.getD (n.weightMatrices.length - 1 - k) default).rows = _
      rw [hwr]
      congr 1
      omega
    · exact (ih hk').2

theorem bpGrad_shape (n : Network) (tgt : List ℝ) (hs : NetShapes n)
    (hlen : tgt.length = n.topology.getD (n.topology.length - 1) 0)
    (i : ℕ) (hi : i < n.weightMatrices.length) :
    (n.bpGrad tgt i).cols = n.topo (i + 1) ∧ (n.bpGrad tgt i).rows = 1 := by
  have h := bpErr_shape n tgt hs hlen (n.weightMatrices.length - 1 - i) (by omega)
  constructor
  · show (n.bpErr tgt (n.weightMatrices.length - 1 - i)).cols = _
    rw [h.1]
    congr 1
    omega
  · exact h.2

theorem getD_set_self (l : List Matrix) (i : ℕ) (a : Matrix) (h : i < l.length) :
    (l.set i a).getD i default = a := by
  rw [List.getD_eq_getElem _ _ (by simpa using h)]
  simp

theorem getD_set_other (l : List Matrix) (i j : ℕ) (a : Matrix) (h : i ≠ j) :
    (l.set i a).getD j default = l.getD j default := by
  simp [List.getD_eq_getElem?_getD, List.getElem?_set_ne h]

/-- During the backward pass the current network agrees with the original
on everything except the weight and bias entries already updated at
indices strictly above i. -/
def AgreeUpTo (n m : Network) (i : ℕ) : Prop :=
  m.topology = n.topology ∧ m.solver = n.solver ∧ m.learningRate = n.learningRate ∧
  m.valueMatrices = n.valueMatrices ∧
  m.weightMatrices.length = n.weightMatrices.length ∧
  m.biasMatrices.length = n.biasMatrices.length ∧
  (∀ j, j ≤ i → m.weightMatrices.getD j default = n.weightMatrices.getD j default) ∧
  (∀ j, j ≤ i → m.biasMatrices.getD j default = n.biasMatrices.getD j default)

theorem bpStep_eq (n : Network) (tgt : List ℝ) (hs : NetShapes n)
    (hlen : tgt.length = n.topology.getD (n.topology.length - 1) 0)
    (i : ℕ) (hi : i < n.weightMatrices.length) (m : Network) (ha : AgreeUpTo n m i) :
    bpStep m (n.bpErr tgt (n.weightMatrices.length - 1 - i)) i = .ok
      ({ m with
          weightMatrices := m.weightMatrices.set i
            ((n.weightMatrices.getD i default).addC
              (((n.valueMatrices.getD i default).transpose).mulC (n.bpGrad tgt i)))
          biasMatrices := m.biasMatrices.set i
            ((n.biasMatrices.getD i default).addC (n.bpGrad tgt i)) },
        n.bpErr tgt (n.weightMatrices.length - i)) := by
  obtain ⟨ht, hsol, hlr, hval, hwLen, hbLen, hw, hb⟩ := ha
  obtain ⟨htl, hwl, hbl, hvl, hwb, hv⟩ := hs
  have hE := bpErr_shape n tgt ⟨htl, hwl, hbl, hvl, hwb, hv⟩ hlen
    (n.weightMatrices.length - 1 - i) (by omega)
  have hEc : (n.bpErr tgt (n.weightMatrices.length - 1 - i)).cols = n.topo (i + 1) := by
    rw [hE.1]
    congr 1
    omega
  have hEr : (n.bpErr tgt (n.weightMatrices.length - 1 - i)).rows = 1 := hE.2
  obtain ⟨hwc, hwr, hbc, hbr⟩ := hwb i (by omega)
  have hvi := hv i (by omega)
  have hvi1 := hv (i + 1) (by omega)
  unfold bpStep
  rw [hw i le_rfl, hb i le_rfl, hval, hsol, hlr]
  have h1 : (n.bpErr tgt (n.weightMatrices.length - 1 - i)).multiply
      ((n.weightMatrices.getD i default).transpose) = .ok
        ((n.bpErr tgt (n.weightMatrices.length - 1 - i)).mulC
          ((n.weightMatrices.getD i default).transpose)) := by
    refine Matrix.multiply_eq_ok _ _ ?_
    show _ = (n.weightMatrices.getD i default).cols
    rw [hEc, hwc]
  rw [h1]
  simp only [exceptBindOk]
  have h2 : (n.bpErr tgt (n.weightMatrices.length - 1 - i)).multiplyElements
      ((n.valueMatrices.getD (i + 1) default).applyFunction n.solver.Df) = .ok
        ((n.bpErr tgt (n.weightMatrices.length - 1 - i)).hadC
          ((n.valueMatrices.getD (i + 1) default).applyFunction n.solver.Df)) := by
    refine Matrix.multiplyElements_eq_ok _ _ ?_ ?_
    · show _ = (n.valueMatrices.getD (i + 1) default).cols
      rw [hEc, hvi1.1]
    · show _ = (n.valueMatrices.getD (i + 1) default).rows
      rw [hEr, hvi1.2]
  rw [h2]
  simp only [exceptBindOk]
  have h3 : ((n.valueMatrices.getD i default).transpose).multiply
      (((n.bpErr tgt (n.weightMatrices.length - 1 - i)).hadC
        ((n.valueMatrices.getD (i + 1) default).applyFunction n.solver.Df)).multiplyScalar
          n.learningRate) = .ok
        (((n.valueMatrices.getD i default).transpose).mulC
          (((n.bpErr tgt (n.weightMatrices.length - 1 - i)).hadC
            ((n.valueMatrices.getD (i + 1) default).applyFunction n.solver.Df)).multiplyScalar
              n.learningRate)) := by
    refine Matrix.multiply_eq_ok _ _ ?_
    show (n.valueMatrices.getD i default).rows =
      (n.bpErr tgt (n.weightMatrices.length - 1 - i)).rows
    rw [hvi.2, hEr]
  rw [h3]
  simp only [exceptBindOk]
  have h4 : (n.weightMatrices.getD i default).add
      (((n.valueMatrices.getD i default).transpose).mulC
        (((n.bpErr tgt (n.weightMatrices.length - 1 - i)).hadC
          ((n.valueMatrices.getD (i + 1) default).applyFunction n.solver.Df)).multiplyScalar
            n.learningRate)) = .ok
        ((n.weightMatrices.getD i default).addC
          (((n.valueMatrices.getD i default).transpose).mulC
            (((n.bpErr tgt (n.weightMatrices.length - 1 - i)).hadC
              ((n.valueMatrices.getD (i + 1) default).applyFunction n.solver.Df)).multiplyScalar
                n.learningRate))) := by
    refine Matrix.add_eq_ok _ _ ?_ ?_
    · show _ = (n.bpErr tgt (n.weightMatrices.length - 1 - i)).cols
      rw [hwc, hEc]
    · show _ = (n.valueMatrices.getD i default).cols
      rw [hwr, hvi.1]
  rw [h4]
  simp only [exceptBindOk]
  have h5 : (n.biasMatrices.getD i default).add
      (((n.bpErr tgt (n.weightMatrices.length - 1 - i)).hadC
        ((n.valueMatrices.getD (i + 1) default).applyFunction n.solver.Df)).multiplyScalar
          n.learningRate) = .ok
        ((n.biasMatrices.getD i default).addC
          (((n.bpErr tgt (n.weightMatrices.length - 1 - i)).hadC
            ((n.valueMatrices.getD (i + 1) default).applyFunction n.solver.Df)).multiplyScalar
              n.learningRate)) := by
    refine Matrix.add_eq_ok _ _ ?_ ?_
    · show _ = (n.bpErr tgt (n.weightMatrices.length - 1 - i)).cols
      rw [hbc, hEc]
    · show _ = (n.bpErr tgt (n.weightMatrices.length - 1 - i)).rows
      rw [hbr, hEr]
  rw [h5]
  simp only [exceptBindOk]
  have hnext : (n.bpErr tgt (n.weightMatrices.length - 1 - i)).mulC
      ((n.weightMatrices.getD i default).transpose) =
      n.bpErr tgt (n.weightMatrices.length - i) := by
    rw [show n.weightMatrices.length - i = (n.weightMatrices.length - 1 - i) + 1 from by omega]
    rw [Network.bpErr]
    rw [show n.weightMatrices.length - 1 - (n.weightMatrices.length - 1 - i) = i from by omega]
  rw [hnext]
  simp only [Network.bpGrad]

theorem bpLoop_eq (n : Network) (tgt : List ℝ) (hs : NetShapes n)
    (hlen : tgt.length = n.topology.getD (n.topology.length - 1) 0) :
    ∀ i, i < n.weightMatrices.length → ∀ m, AgreeUpTo n m i →
      ∃ m', bpLoop i m (n.bpErr tgt (n.weightMatrices.length - 1 - i)) = .ok m' ∧
        m'.topology = m.topology ∧ m'.solver = m.solver ∧
        m'.outputSolver = m.outputSolver ∧ m'.output = m.output ∧
        m'.activation = m.activation ∧ m'.errFunc = m.errFunc ∧
        m'.errorSolver = m.errorSolver ∧ m'.debug = m.debug ∧ m'.sm = m.sm ∧
        m'.learningRate = m.learningRate ∧ m'.valueMatrices = m.valueMatrices ∧
        m'.weightMatrices.length = m.weightMatrices.length ∧
        m'.biasMatrices.length = m.biasMatrices.length ∧
        (∀ j, j ≤ i →
          m'.weightMatrices.getD j default =
            (n.weightMatrices.getD j default).addC
              (((n.valueMatrices.getD j default).transpose).mulC (n.bpGrad tgt j)) ∧
          m'.biasMatrices.getD j default =
            (n.biasMatrices.getD j default).addC (n.bpGrad tgt j)) ∧
        (∀ j, i < j →
          m'.weightMatrices.getD j default = m.weightMatrices.getD j default ∧
          m'.biasMatrices.getD j default = m.biasMatrices.getD j default) := by
  intro i
  induction i with
  | zero =>
    intro hi m ha
    have htl := hs.1
    have hwl := hs.2.1
    have hbl := hs.2.2.1
    have hwpos : 0 < m.weightMatrices.length := by
      rw [ha.2.2.2.2.1]
      omega
    have hbpos : 0 < m.biasMatrices.length := by
      rw [ha.2.2.2.2.2.1]
      omega
    rw [bpLoop, bpStep_eq n tgt hs hlen 0 hi m ha]
    simp only [exceptBindOk]
    refine ⟨_, rfl, rfl, rfl, rfl, rfl, rfl, rfl, rfl, rfl, rfl, rfl, rfl,
      by simp, by simp, ?_, ?_⟩
    · intro j hj
      have hj0 : j = 0 := by omega
      subst hj0
      exact ⟨getD_set_self _ _ _ hwpos, getD_set_self _ _ _ hbpos⟩
    · intro j hj
      exact ⟨getD_set_other _ _ _ _ (by omega), getD_set_other _ _ _ _ (by omega)⟩
  | succ i ih =>
    intro hi1 m ha
    have htl := hs.1
    have hwl := hs.2.1
    have hbl := hs.2.2.1
    rw [bpLoop, bpStep_eq n tgt hs hlen (i + 1) hi1 m ha]
    simp only [exceptBindOk]
    rw [show n.weightMatrices.length - (i + 1) = n.weightMatrices.length - 1 - i from by omega]
    obtain ⟨ht, hsol, hlr, hval, hwLen, hbLen, hw, hb⟩ := ha
    have ha2 : AgreeUpTo n
        { m with
          weightMatrices := m.weightMatrices.set (i + 1)
            ((n.weightMatrices.getD (i + 1) default).addC
              (((n.valueMatrices.getD (i + 1) default).transpose).mulC
                (n.bpGrad tgt (i + 1))))
          biasMatrices := m.biasMatrices.set (i + 1)
            ((n.biasMatrices.getD (i + 1) default).addC (n.bpGrad tgt (i + 1))) } i := by
      refine ⟨ht, hsol, hlr, hval, by simpa using hwLen, by simpa using hbLen, ?_, ?_⟩
      · intro j hj
        show (m.weightMatrices.set (i + 1) _).getD j default = _
        rw [getD_set_other _ _ _ _ (by omega)]
        exact hw j (by omega)
      · intro j hj
        show (m.biasMatrices.set (i + 1) _).getD j default = _
        rw [getD_set_other _ _ _ _ (by omega)]
        exact hb j (by omega)
    obtain ⟨m', hrun, hp1, hp2, hp3, hp4, hp5, hp6, hp7, hp8, hp9, hp10, hp11,
      hp12, hp13, hdone, huntouched⟩ := ih (by omega) _ ha2
    refine ⟨m', hrun, hp1, hp2, hp3, hp4, hp5, hp6, hp7, hp8, hp9, hp10, hp11,
      by simpa using hp12, by simpa using hp13, ?_, ?_⟩
    · intro j hj
      rcases Nat.lt_or_ge j (i + 1) with hlt | hge
      · exact hdone j (by omega)
      · have hj1 : j = i + 1 := by omega
        obtain ⟨hu1, hu2⟩ := huntouched j (by omega)
        rw [hu1, hu2, hj1]
        constructor
        · show (m.weightMatrices.set (i + 1) _).getD (i + 1) default = _
          rw [getD_set_self _ _ _ (by omega)]
        · show (m.biasMatrices.set (i + 1) _).getD (i + 1) default = _
          rw [getD_set_self _ _ _ (by omega)]
    · intro j hj
      obtain ⟨hu1, hu2⟩ := huntouched j (by omega)
      rw [hu1, hu2]
      constructor
      · show (m.weightMatrices.set (i + 1) _).getD j default = _
        rw [getD_set_other _ _ _ _ (by omega)]
      · show (m.biasMatrices.set (i + 1) _).getD j default = _
        rw [getD_set_other _ _ _ _ (by omega)]

theorem backPropagate_formula (n : Network) (tgt : List ℝ) (hs : NetShapes n)
    (hlen : tgt.length = n.topology.getD (n.topology.length - 1) 0) :
    ∃ n', n.backPropagate tgt = .ok n' ∧
      n'.topology = n.topology ∧ n'.solver = n.solver ∧
      n'.outputSolver = n.outputSolver ∧ n'.errorSolver = n.errorSolver ∧
      n'.valueMatrices = n.valueMatrices ∧ n'.learningRate = n.learningRate ∧
      n'.weightMatrices.length = n.weightMatrices.length ∧
      n'.biasMatrices.length = n.biasMatrices.length ∧
      ∀ i, i < n.weightMatrices.length →
        n'.weightMatrices.getD i default =
          (n.weightMatrices.getD i default).addC
            (((n.valueMatrices.getD i default).transpose).mulC (n.bpGrad tgt i)) ∧
        n'.biasMatrices.getD i default =
          (n.biasMatrices.getD i default).addC (n.bpGrad tgt i) := by
  have htl := hs.1
  have hwl := hs.2.1
  have hvl := hs.2.2.2.1
  have hvlast := hs.2.2.2.2.2 (n.topology.length - 1) (by omega)
  unfold Network.backPropagate
  rw [if_neg (by simp [hlen])]
  have hadd0 : (⟨tgt.length, 1, tgt⟩ : Matrix).add
      ((n.valueMatrices.getD (n.valueMatrices.length - 1) default).negative) = .ok
        ((⟨tgt.length, 1, tgt⟩ : Matrix).addC
          ((n.valueMatrices.getD (n.valueMatrices.length - 1) default).negative)) := by
    refine Matrix.add_eq_ok _ _ ?_ ?_
    · show tgt.length = (n.valueMatrices.getD (n.valueMatrices.length - 1) default).cols
      rw [hlen, hvl, hvlast.1]
      rfl
    · show 1 = (n.valueMatrices.getD (n.valueMatrices.length - 1) default).rows
      rw [hvl, hvlast.2]
  have hout : (⟨tgt.length, 1, tgt⟩ : Matrix).addC
      ((n.valueMatrices.getD (n.valueMatrices.length - 1) default).negative) =
      n.outErr tgt := by
    unfold Network.outErr Matrix.subC Matrix.addC
    apply Matrix.build_congr
    intro x y hx hy
    rw [Matrix.negative_at]
    ring
  split
  · next e heq =>
    rw [hadd0] at heq
    exact Except.noConfusion heq
  · next errMtx heq =>
    rw [hadd0] at heq
    obtain rfl : (⟨tgt.length, 1, tgt⟩ : Matrix).addC
        ((n.valueMatrices.getD (n.valueMatrices.length - 1) default).negative) = errMtx := by
      injection heq
    rw [hout]
    split
    · next hzero =>
      omega
    · next L hsucc =>
      have hL : L < n.weightMatrices.length := by omega
      have hagree : AgreeUpTo n n L :=
        ⟨rfl, rfl, rfl, rfl, rfl, rfl, fun j _ => rfl, fun j _ => rfl⟩
      obtain ⟨m', hrun, hp1, hp2, hp3, hp4, hp5, hp6, hp7, hp8, hp9, hp10, hp11,
        hp12, hp13, hdone, _⟩ := bpLoop_eq n tgt hs hlen L hL n hagree
      rw [show n.weightMatrices.length - 1 - L = 0 from by omega] at hrun
      rw [show n.bpErr tgt 0 = n.outErr tgt from rfl] at hrun
      rw [hrun]
      refine ⟨m', rfl, hp1, hp2, hp3, hp7, hp11, hp10, hp12, hp13, ?_⟩
      intro i hi
      exact hdone i (by omega)

/-- Claim C2: for a well-formed network and a target of the output
length, backPropagate succeeds; the output-layer error is target minus
the cached prediction (first part, stated entrywise on outErr, the base
of the bpErr/bpGrad recursion); the error reaching each layer is the next
layer's error times the transpose of that layer's not-yet-updated weight
matrix (the bpErr recursion); and every weight matrix is updated in place
by adding the outer product of the previous layer's transposed cached
activation with the learning-rate-scaled gradient, while the bias gets
the gradient itself. -/
theorem backPropagate_spec (n : Network) (tgt : List ℝ) (hs : NetShapes n)
    (hlen : tgt.length = n.topology.getD (n.topology.length - 1) 0) :
    (∀ x, x < tgt.length →
      (n.outErr tgt).at x 0 =
        tgt.getD x 0 -
          (n.valueMatrices.getD (n.valueMatrices.length - 1) default).at x 0) ∧
    ∃ n', n.backPropagate tgt = .ok n' ∧
      n'.valueMatrices = n.valueMatrices ∧
      n'.weightMatrices.length = n.weightMatrices.length ∧
      n'.biasMatrices.length = n.biasMatrices.length ∧
      (∀ i, i < n.weightMatrices.length →
        n'.weightMatrices.getD i default =
          (n.weightMatrices.getD i default).addC
            (((n.valueMatrices.getD i default).transpose).mulC (n.bpGrad tgt i)) ∧
        n'.biasMatrices.getD i default =
          (n.biasMatrices.getD i default).addC (n.bpGrad tgt i)) := by
  constructor
  · intro x hx
    unfold Network.outErr Matrix.subC
    rw [Matrix.build_at _ _ _ x 0 hx (by norm_num)]
    congr 1
    simp [Matrix.at, hx]
  · obtain ⟨n', hok, _, _, _, _, hval, _, hwlen, hblen, hform⟩ :=
      backPropagate_formula n tgt hs hlen
    exact ⟨n', hok, hval, hwlen, hblen, hform⟩

/-- A concrete well-formed network for the C2 witness. -/
def nW2 : Network :=
  ⟨[1, 1], [⟨1, 1, [2]⟩], [⟨1, 1, [1]⟩, ⟨1, 1, [4]⟩], [⟨1, 1, [3]⟩], 0.5,
   .Linear, GetActivationFunctions .Linear, .Linear, GetActivationFunctions .Linear,
   .MeanSquaredError, GetErrorFunction .MeanSquaredError, false, false⟩

theorem backPropagate_spec_witness :
    NetShapes nW2 ∧
    ([(1 : ℝ)] : List ℝ).length = nW2.topology.getD (nW2.topology.length - 1) 0 ∧
    ∃ n', nW2.backPropagate [1] = .ok n' := by
  have hshape : NetShapes nW2 := by
    unfold NetShapes Network.topo
    refine ⟨?_, ?_, ?_, ?_, ?_, ?_⟩ <;> decide
  have hl : ([(1 : ℝ)] : List ℝ).length = nW2.topology.getD (nW2.topology.length - 1) 0 := by
    decide
  refine ⟨hshape, hl, ?_⟩
  obtain ⟨_, n', hok, _⟩ := backPropagate_spec nW2 [1] hshape hl
  exact ⟨n', hok⟩

theorem list_ext_getD (l₁ l₂ : List Matrix) (hl : l₁.length = l₂.length)
    (h : ∀ i, i < l₁.length → l₁.getD i default = l₂.getD i default) : l₁ = l₂ := by
  apply List.ext_getElem hl
  intro i h1 h2
  have hi := h i h1
  rwa [List.getD_eq_getElem _ _ h1, List.getD_eq_getElem _ _ h2] at hi

theorem bpErr_outputSolver (n : Network) (s₂ : ActivationSolver) (tgt : List ℝ) :
    ∀ k, Network.bpErr { n with outputSolver := s₂ } tgt k = n.bpErr tgt k := by
  intro k
  induction k with
  | zero => rfl
  | succ k ih => rw [Network.bpErr, Network.bpErr, ih]

theorem bpGrad_outputSolver (n : Network) (s₂ : ActivationSolver) (tgt : List ℝ) (i : ℕ) :
    Network.bpGrad { n with outputSolver := s₂ } tgt i = n.bpGrad tgt i := by
  unfold Network.bpGrad
  rw [bpErr_outputSolver]

/-- Claim C10: backPropagate derives every layer's derivative term,
including the output layer's, from the hidden solver's Df; the configured
output activation's derivative is never consulted.  First: replacing the
outputSolver by any other solver leaves the updated weight and bias
matrices unchanged.  Second: the output layer's bias update is built from
n.solver.Df applied to the cached output-layer values. -/
theorem backprop_output_solver_unused (n : Network) (tgt : List ℝ) (hs : NetShapes n)
    (hlen : tgt.length = n.topology.getD (n.topology.length - 1) 0)
    (s₂ : ActivationSolver) :
    ∃ n₁ n₂, n.backPropagate tgt = .ok n₁ ∧
      Network.backPropagate { n with outputSolver := s₂ } tgt = .ok n₂ ∧
      n₂.weightMatrices = n₁.weightMatrices ∧
      n₂.biasMatrices = n₁.biasMatrices ∧
      n₁.biasMatrices.getD (n.weightMatrices.length - 1) default =
        (n.biasMatrices.getD (n.weightMatrices.length - 1) default).addC
          (((n.outErr tgt).hadC
            ((n.valueMatrices.getD n.weightMatrices.length default).applyFunction
              n.solver.Df)).multiplyScalar n.learningRate) := by
  have htl := hs.1
  have hwl := hs.2.1
  obtain ⟨n₁, hok1, _, _, _, _, hval1, _, hwlen1, hblen1, hform1⟩ :=
    backPropagate_formula n tgt hs hlen
  have hs2 : NetShapes { n with outputSolver := s₂ } := hs
  have hlen2 : tgt.length =
      ({ n with outputSolver := s₂ } : Network).topology.getD
        (({ n with outputSolver := s₂ } : Network).topology.length - 1) 0 := hlen
  obtain ⟨n₂, hok2, _, _, _, _, hval2, _, hwlen2, hblen2, hform2⟩ :=
    backPropagate_formula { n with outputSolver := s₂ } tgt hs2 hlen2
  have hLpos : 0 < n.weightMatrices.length := by omega
  have hgradL : n.bpGrad tgt (n.weightMatrices.length - 1) =
      ((n.outErr tgt).hadC
        ((n.valueMatrices.getD n.weightMatrices.length default).applyFunction
          n.solver.Df)).multiplyScalar n.learningRate := by
    unfold Network.bpGrad
    rw [show n.weightMatrices.length - 1 - (n.weightMatrices.length - 1) = 0 from by omega]
    rw [show n.weightMatrices.length - 1 + 1 = n.weightMatrices.length from by omega]
    rfl
  refine ⟨n₁, n₂, hok1, hok2, ?_, ?_, ?_⟩
  · refine list_ext_getD _ _ (by rw [hwlen2, hwlen1]) ?_
    intro i hi
    have hi' : i < n.weightMatrices.length := by
      rw [hwlen2] at hi
      exact hi
    rw [(hform2 i hi').1, (hform1 i hi').1, bpGrad_outputSolver]
  · refine list_ext_getD _ _ (by rw [hblen2, hblen1]) ?_
    intro i hi
    rw [hblen2] at hi
    have hi0 : i < n.biasMatrices.length := hi
    have hbl := hs.2.2.1
    have hi' : i < n.weightMatrices.length := by omega
    rw [(hform2 i hi').2, (hform1 i hi').2, bpGrad_outputSolver]
  · rw [(hform1 (n.weightMatrices.length - 1) (by omega)).2, hgradL]

/-- A concrete well-formed network for the C10 witness. -/
def nW10 : Network :=
  ⟨[1, 1], [⟨1, 1, [2]⟩], [⟨1, 1, [1]⟩, ⟨1, 1, [4]⟩], [⟨1, 1, [3]⟩], 0.5,
   .Sigmoid, GetActivationFunctions .Sigmoid, .Tanh, GetActivationFunctions .Tanh,
   .MeanSquaredError, GetErrorFunction .MeanSquaredError, false, false⟩

theorem backprop_output_solver_unused_witness :
    NetShapes nW10 ∧
    ∃ n₁ n₂, nW10.backPropagate [1] = .ok n₁ ∧
      Network.backPropagate { nW10 with outputSolver := ⟨id, id⟩ } [1] = .ok n₂ ∧
      n₂.weightMatrices = n₁.weightMatrices ∧
      n₂.biasMatrices = n₁.biasMatrices := by
  have hshape : NetShapes nW10 := by
    unfold NetShapes Network.topo
    refine ⟨?_, ?_, ?_, ?_, ?_, ?_⟩ <;> decide
  refine ⟨hshape, ?_⟩
  obtain ⟨n₁, n₂, h1, h2, h3, h4, _⟩ :=
    backprop_output_solver_unused nW10 [1] hshape (by decide) ⟨id, id⟩
  exact ⟨n₁, n₂, h1, h2, h3, h4⟩

end Jasper
